import Mathlib

/-!
Verification of the digest pipeline of `rss_digest.py`: fingerprinting and
deduplication state, the seen-store write contract, fail-open classification,
per-category quotas and ordering, synthesis fallback and digest assembly.

Modelling conventions: Python dictionaries with string keys are
insertion-ordered association lists (`StrMap`); the MD5 digest used for
fingerprints is an arbitrary function `h : String → String` applied to the
string the code actually hashes; timestamps are the ISO-8601 strings the
program itself stores, compared lexicographically by code point exactly as
Python's `>` on strings does.
-/

namespace Nooze

/-- An item record as built in `fetch_feeds` (rss_digest.py lines 384-391);
`priority` and `filterReason` are the fields assigned during classification
in `main` (lines 854-855), absent (`none`) until then. -/
structure Article where
  source : String
  category : String
  title : String
  link : String
  content : String
  date : Option String := none
  priority : Option String := none
  filterReason : Option String := none
deriving DecidableEq

/-- String hashed by `get_article_hash` (rss_digest.py line 294): the
f-string concatenation of title and link. -/
def uniqueStr (a : Article) : String := a.title ++ a.link

/-- Models `get_article_hash` (rss_digest.py lines 292-295): the MD5 hex
digest of `uniqueStr a`, with the digest function abstracted as `h`. -/
def get_article_hash (h : String → String) (a : Article) : String :=
  h (uniqueStr a)

/-- A Python dict with string keys, as an insertion-ordered association
list. -/
abbrev StrMap (β : Type) := List (String × β)

/-- First-match key lookup, Python `d[k]` / `k in d`. -/
def lookupKV {β : Type} (k : String) : StrMap β → Option β
  | [] => none
  | (a, b) :: t => if a = k then some b else lookupKV k t

/-- Python `d[k] = v`: overwrite in place when the key is present, append
otherwise (dicts preserve insertion order). -/
def setKV {β : Type} : StrMap β → String → β → StrMap β
  | [], k, v => [(k, v)]
  | (a, b) :: t, k, v =>
      if a = k then (k, v) :: t else (a, b) :: setKV t k v

/-- Python's `<` on strings: strict lexicographic comparison of the two
code-point sequences. -/
def codeLt : List Char → List Char → Bool
  | [], [] => false
  | [], _ :: _ => true
  | _ :: _, [] => false
  | a :: as, b :: bs =>
      if a.toNat < b.toNat then true
      else if b.toNat < a.toNat then false
      else codeLt as bs

/-- Python's `s < t` on the two strings' characters. -/
def strLt (s t : String) : Bool := codeLt s.toList t.toList

/-- Cleaning step of `load_seen_articles` (rss_digest.py lines 303-309):
keep exactly the entries whose ISO timestamp string compares greater than
the cutoff `(now - SEEN_RETENTION_DAYS days).isoformat()`, which that code
computes and is passed here as the `cutoff` argument. -/
def load_seen_articles (data : StrMap String) (cutoff : String) :
    StrMap String :=
  data.filter (fun kv => strLt cutoff kv.2)

/-- Models `mark_as_seen` (rss_digest.py lines 324-329): set every
article's fingerprint to the current timestamp `now`, overwriting any prior
value. -/
def mark_as_seen (h : String → String) (now : String) (seen : StrMap String)
    (articles : List Article) : StrMap String :=
  articles.foldl (fun m a => setKV m (get_article_hash h a) now) seen

/-- Dedup filtering of `fetch_feeds` (rss_digest.py lines 392-398): among
the parsed, age-filtered entries, keep exactly those whose fingerprint is
not a key of the seen mapping. -/
def fetch_feeds (h : String → String) (seen : StrMap String)
    (articles : List Article) : List Article :=
  articles.filter (fun a => (lookupKV (get_article_hash h a) seen).isNone)

/-! ### Association-list and comparison lemmas -/

lemma codeLt_asymm : ∀ s t : List Char,
    codeLt s t = true → codeLt t s = false := by
  intro s
  induction s with
  | nil => intro t h; cases t <;> simp_all [codeLt]
  | cons a as ih =>
    intro t h
    cases t with
    | nil => simp [codeLt] at h
    | cons b bs =>
      by_cases hab : a.toNat < b.toNat
      · have hba : ¬ b.toNat < a.toNat := by omega
        simp [codeLt, hba, hab]
      · by_cases hba : b.toNat < a.toNat
        · simp [codeLt, hab, hba] at h
        · simp only [codeLt, hab, hba, if_false] at h
          simp [codeLt, hab, hba, ih bs h]

lemma lookupKV_append_none {β : Type} (k : String) (l₁ l₂ : StrMap β)
    (h : lookupKV k l₁ = none) : lookupKV k (l₁ ++ l₂) = lookupKV k l₂ := by
  induction l₁ with
  | nil => rfl
  | cons p t ih =>
    obtain ⟨a, b⟩ := p
    by_cases hak : a = k
    · simp [lookupKV, hak] at h
    · simp only [lookupKV, hak, if_false] at h
      simpa [lookupKV, hak] using ih h

lemma lookupKV_append_some {β : Type} (k : String) (l₁ l₂ : StrMap β)
    (w : β) (h : lookupKV k l₁ = some w) :
    lookupKV k (l₁ ++ l₂) = some w := by
  induction l₁ with
  | nil => simp [lookupKV] at h
  | cons p t ih =>
    obtain ⟨a, b⟩ := p
    by_cases hak : a = k
    · simp [lookupKV, hak] at h ⊢
      exact h
    · simp only [lookupKV, hak, if_false] at h
      simpa [lookupKV, hak] using ih h

lemma lookupKV_setKV_self {β : Type} (m : StrMap β) (k : String) (v : β) :
    lookupKV k (setKV m k v) = some v := by
  induction m with
  | nil => simp [setKV, lookupKV]
  | cons p t ih =>
    obtain ⟨a, b⟩ := p
    by_cases hak : a = k
    · simp [setKV, hak, lookupKV]
    · simp [setKV, hak, lookupKV, ih]

lemma lookupKV_setKV_ne {β : Type} (m : StrMap β) (k k' : String) (v : β)
    (hk : k' ≠ k) : lookupKV k' (setKV m k v) = lookupKV k' m := by
  induction m with
  | nil => simp [setKV, lookupKV, Ne.symm hk]
  | cons p t ih =>
    obtain ⟨a, b⟩ := p
    by_cases hak : a = k
    · subst hak
      simp [setKV, lookupKV, Ne.symm hk]
    · simp [setKV, hak, lookupKV, ih]

lemma lookupKV_mark_as_seen (h : String → String) (now : String)
    (seen : StrMap String) (arts : List Article) (k : String) :
    lookupKV k (mark_as_seen h now seen arts) =
      if k ∈ arts.map (get_article_hash h) then some now
      else lookupKV k seen := by
  induction arts generalizing seen with
  | nil => simp [mark_as_seen]
  | cons a t ih =>
    have hstep : mark_as_seen h now seen (a :: t) =
        mark_as_seen h now (setKV seen (get_article_hash h a) now) t := rfl
    rw [hstep, ih]
    by_cases hk : k = get_article_hash h a
    · have hcons : k ∈ (a :: t).map (get_article_hash h) := by simp [hk]
      rw [if_pos hcons]
      by_cases hmem : k ∈ t.map (get_article_hash h)
      · rw [if_pos hmem]
      · rw [if_neg hmem, hk, lookupKV_setKV_self]
    · by_cases hmem : k ∈ t.map (get_article_hash h)
      · have hcons : k ∈ (a :: t).map (get_article_hash h) := by
          simp [List.mem_cons, hmem]
        rw [if_pos hmem, if_pos hcons]
      · have hcons : k ∉ (a :: t).map (get_article_hash h) := by
          simp only [List.map_cons, List.mem_cons]
          rintro (hh | hh)
          · exact hk hh
          · exact hmem hh
        rw [if_neg hmem, if_neg hcons, lookupKV_setKV_ne _ _ _ _ hk]

/-! ### C2 — fingerprint stability -/

/-- C2 (amended): two raw items with identical title and link have the same
fingerprint whatever their other fields; and when the digest function is
injective, items whose concatenated `title ++ link` strings differ have
different fingerprints.  Items that differ in title or link alone can share
a fingerprint when the concatenations coincide. -/
theorem fingerprint_stability_C2 (h : String → String) (a b : Article) :
    (a.title = b.title ∧ a.link = b.link →
      get_article_hash h a = get_article_hash h b) ∧
    (Function.Injective h → uniqueStr a ≠ uniqueStr b →
      get_article_hash h a ≠ get_article_hash h b) := by
  constructor
  · rintro ⟨h1, h2⟩
    simp [get_article_hash, uniqueStr, h1, h2]
  · intro hinj hne heq
    exact hne (hinj heq)

def artSplitA : Article :=
  { source := "NYT", category := "newspaper", title := "ab", link := "c",
    content := "body one" }

def artSplitB : Article :=
  { source := "Variety", category := "entertainment", title := "a",
    link := "bc", content := "body two" }

/-- C2, counterexample: these two items differ in title (and in link), yet
the strings fed to the digest are character-for-character identical, so
`get_article_hash` returns the same fingerprint — shown here for the
identity digest, and forced for every digest function (MD5 included) by the
equality of `uniqueStr`. -/
theorem fingerprint_clash_C2 :
    artSplitA.title ≠ artSplitB.title ∧
      uniqueStr artSplitA = uniqueStr artSplitB ∧
      get_article_hash id artSplitA = get_article_hash id artSplitB :=
  ⟨by decide, by decide, by decide⟩

def artDupA : Article :=
  { source := "NYT", category := "newspaper", title := "T", link := "L",
    content := "x" }

def artDupB : Article :=
  { source := "LA Times", category := "newspaper", title := "T",
    link := "L", content := "y", date := some "2026-01-01" }

def artOther : Article :=
  { source := "NYT", category := "newspaper", title := "U", link := "M",
    content := "z" }

/-- C2, witness: the amended theorem applied at concrete items. -/
theorem fingerprint_stability_C2_witness :
    get_article_hash id artDupA = get_article_hash id artDupB ∧
      get_article_hash id artDupA ≠ get_article_hash id artOther :=
  ⟨(fingerprint_stability_C2 id artDupA artDupB).1 ⟨rfl, rfl⟩,
   (fingerprint_stability_C2 id artDupA artOther).2 Function.injective_id
     (by decide)⟩

/-! ### C3 — dedup idempotence -/

/-- C3: running the dedup filter a second time on the identical raw set,
after the seen mapping has been updated with `mark_as_seen` on the first
run's output (and persisted unchanged), accepts no item at all. -/
theorem dedup_idempotence_C3 (h : String → String) (now : String)
    (seen : StrMap String) (raw : List Article) :
    fetch_feeds h (mark_as_seen h now seen (fetch_feeds h seen raw)) raw
      = [] := by
  apply List.filter_eq_nil_iff.mpr
  intro a ha
  rw [lookupKV_mark_as_seen]
  by_cases hseen : (lookupKV (get_article_hash h a) seen).isNone
  · have hmem : a ∈ fetch_feeds h seen raw :=
      List.mem_filter.mpr ⟨ha, hseen⟩
    have hmap : get_article_hash h a ∈
        (fetch_feeds h seen raw).map (get_article_hash h) :=
      List.mem_map_of_mem _ hmem
    simp [hmap]
  · by_cases hmem : get_article_hash h a ∈
        (fetch_feeds h seen raw).map (get_article_hash h)
    · simp [hmem]
    · simp only [hmem, if_false]
      simpa using hseen

/-! ### C8 — seen-store expiry on load -/

/-- C8: after the load step, an entry is present exactly when it was in the
raw persisted data with a timestamp strictly newer than the cutoff
`now - 7 days`; in particular every entry older than the cutoff is
absent. -/
theorem seen_expiry_C8 (data : StrMap String) (cutoff k v : String) :
    ((k, v) ∈ load_seen_articles data cutoff ↔
      (k, v) ∈ data ∧ strLt cutoff v = true) ∧
    (strLt v cutoff = true → (k, v) ∉ load_seen_articles data cutoff) := by
  constructor
  · simp [load_seen_articles, List.mem_filter]
  · intro hv hmem
    have hcv : strLt cutoff v = true := by
      have := List.mem_filter.mp hmem
      simpa using this.2
    have := codeLt_asymm _ _ hv
    simp only [strLt] at hcv this
    rw [this] at hcv
    exact Bool.false_ne_true hcv

/-- C8, witness: a stale entry is dropped and a fresh one kept. -/
theorem seen_expiry_C8_witness :
    ("a", "2026-01-01T00:00:00") ∉
      load_seen_articles
        [("a", "2026-01-01T00:00:00"), ("b", "2026-01-09T00:00:00")]
        "2026-01-05T00:00:00" ∧
    ("b", "2026-01-09T00:00:00") ∈
      load_seen_articles
        [("a", "2026-01-01T00:00:00"), ("b", "2026-01-09T00:00:00")]
        "2026-01-05T00:00:00" :=
  ⟨(seen_expiry_C8 _ _ _ _).2 (by decide),
   (seen_expiry_C8 _ _ _ _).1.mpr ⟨by decide, by decide⟩⟩

/-! ### Configuration tables -/

/-- `FEED_CATEGORIES` (rss_digest.py lines 272-286). -/
def FEED_CATEGORIES : StrMap String :=
  [("Deadline", "entertainment"), ("Deadline Legal", "entertainment"),
   ("Variety", "entertainment"), ("Hollywood Reporter", "entertainment"),
   ("NYT", "newspaper"), ("LA Times", "newspaper"),
   ("The Atlantic", "newspaper"), ("The Economist", "newspaper"),
   ("Artificial Lawyer", "ai_legal"),
   ("WDWNT", "theme_parks"), ("Touring Plans", "theme_parks"),
   ("Eater LA", "food"), ("LA Times Food", "food")]

/-- Category assigned to a feed at fetch time (rss_digest.py line 386):
`FEED_CATEGORIES.get(feed_name, "entertainment")`. -/
def fetchCategory (source : String) : String :=
  (lookupKV source FEED_CATEGORIES).getD "entertainment"

/-- Category used to bucket an article during synthesis (rss_digest.py
line 482): `FEED_CATEGORIES.get(a['source'], 'newspaper')`. -/
def bucketCategory (source : String) : String :=
  (lookupKV source FEED_CATEGORIES).getD "newspaper"

/-- Keys of `FILTER_PROMPTS` (rss_digest.py lines 142-269); the prompt
bodies are free text addressed to the classifier and play no role in the
program's control flow. -/
def FILTER_PROMPT_KEYS : List String :=
  ["entertainment", "newspaper", "ai_legal", "theme_parks", "food"]

/-- Which category's filter prompt `filter_article` selects (rss_digest.py
line 410): `FILTER_PROMPTS.get(category, FILTER_PROMPTS["entertainment"])`
at the level of keys. -/
def promptCategoryOf (category : String) : String :=
  if FILTER_PROMPT_KEYS.contains category then category else "entertainment"

/-- Soft per-category limits, `category_limits`
(rss_digest.py lines 490-496). -/
def category_limits : StrMap Nat :=
  [("newspaper", 12), ("entertainment", 3), ("ai_legal", 3),
   ("theme_parks", 2), ("food", 3)]

/-- `category_limits.get(cat, 5)` (rss_digest.py line 500). -/
def limitOf (cat : String) : Nat := (lookupKV cat category_limits).getD 5

/-! ### C5 — fail-open classification -/

/-- Parsed classifier verdict — the JSON dict of rss_digest.py line 436;
`priority` and `reason` may be absent, as `main` reads them with `.get`. -/
structure FilterResult where
  includeFlag : Bool
  priority : Option String := none
  reason : Option String := none
deriving DecidableEq

/-- Models `filter_article` (rss_digest.py lines 407-441): `classify`
returns `none` when the service call raises or the response fails to parse,
in which case the item is included by default with priority "medium" and a
rationale noting the failure. -/
def filter_article (classify : Article → Option FilterResult)
    (a : Article) : FilterResult :=
  match classify a with
  | some r => r
  | none =>
      { includeFlag := true, priority := some "medium",
        reason := some "Error - included by default" }

/-- Classification loop of `main` (rss_digest.py lines 849-856): keep the
items whose verdict includes them, assigning `priority` (default "medium")
and `filter_reason` (default ""). -/
def runFilter (classify : Article → Option FilterResult)
    (articles : List Article) : List Article :=
  articles.foldl
    (fun acc a =>
      let r := filter_article classify a
      if r.includeFlag then
        acc ++ [{ a with priority := some (r.priority.getD "medium"),
                         filterReason := some (r.reason.getD "") }]
      else acc) []

lemma foldl_append_map {α β : Type} (f : α → β) (l : List α)
    (acc : List β) :
    l.foldl (fun acc a => acc ++ [f a]) acc = acc ++ l.map f := by
  induction l generalizing acc with
  | nil => simp
  | cons a t ih => simp [ih]

/-- C5: when the classifier errors on every item, `filter_article` returns
the fail-open verdict (include, priority "medium", rationale noting the
failure) on every item, and the classification loop keeps every surviving
item with priority "medium" — the run never aborts. -/
theorem fail_open_classification_C5 (arts : List Article) (a : Article) :
    filter_article (fun _ => none) a =
      { includeFlag := true, priority := some "medium",
        reason := some "Error - included by default" } ∧
    runFilter (fun _ => none) arts =
      arts.map (fun x =>
        { x with priority := some "medium",
                 filterReason := some "Error - included by default" }) := by
  refine ⟨rfl, ?_⟩
  have := foldl_append_map
    (fun x : Article =>
      { x with priority := some "medium",
               filterReason := some "Error - included by default" })
    arts []
  simpa [runFilter, filter_article] using this

/-! ### C9 — bucket ordering -/

/-- Sort key of the bucket sort (rss_digest.py line 487):
`0 if x.get('priority') == 'high' else 1`. -/
def sortKey (a : Article) : Nat :=
  if a.priority = some "high" then 0 else 1

/-- Whether an item carries priority "high". -/
def isHigh (a : Article) : Bool := decide (a.priority = some "high")

/-- Stable insertion into a list sorted by `sortKey`: the inserted item
goes before the first element whose key is not smaller, since it precedes
all of them in the original order. -/
def insertByKey (a : Article) : List Article → List Article
  | [] => [a]
  | b :: bs =>
      if sortKey b < sortKey a then b :: insertByKey a bs
      else a :: b :: bs

/-- The stable sort `categories[cat].sort(key=...)` of rss_digest.py lines
485-487 (Python's list sort is stable), as a stable insertion sort. -/
def sortBucket : List Article → List Article
  | [] => []
  | a :: t => insertByKey a (sortBucket t)

lemma sortKey_of_high {a : Article} (ha : isHigh a = true) :
    sortKey a = 0 := by
  simp only [isHigh, decide_eq_true_eq] at ha
  simp [sortKey, ha]

lemma sortKey_of_not_high {a : Article} (ha : isHigh a = false) :
    sortKey a = 1 := by
  simp only [isHigh, decide_eq_false_iff_not] at ha
  simp [sortKey, ha]

lemma insertByKey_high {a : Article} (ha : isHigh a = true)
    (l : List Article) : insertByKey a l = a :: l := by
  cases l with
  | nil => rfl
  | cons b bs =>
    have : ¬ sortKey b < sortKey a := by
      rw [sortKey_of_high ha]; omega
    simp [insertByKey, this]

lemma insertByKey_skip {a : Article} (ha : isHigh a = false)
    (hs ms : List Article) (hhs : ∀ b ∈ hs, isHigh b = true) :
    insertByKey a (hs ++ ms) = hs ++ insertByKey a ms := by
  induction hs with
  | nil => rfl
  | cons b bs ih =>
    have hb : sortKey b < sortKey a := by
      rw [sortKey_of_high (hhs b (by simp)), sortKey_of_not_high ha]
      omega
    simp only [List.cons_append, insertByKey, hb, if_true, List.append_eq]
    rw [ih fun c hc => hhs c (by simp [hc])]

lemma insertByKey_front {a : Article} (ha : isHigh a = false)
    (ms : List Article) (hms : ∀ b ∈ ms, isHigh b = false) :
    insertByKey a ms = a :: ms := by
  cases ms with
  | nil => rfl
  | cons b bs =>
    have : ¬ sortKey b < sortKey a := by
      rw [sortKey_of_not_high (hms b (by simp)), sortKey_of_not_high ha]
      omega
    simp [insertByKey, this]

lemma sortBucket_partition (l : List Article) :
    sortBucket l = l.filter isHigh ++ l.filter (fun a => !(isHigh a)) := by
  induction l with
  | nil => rfl
  | cons a t ih =>
    show insertByKey a (sortBucket t) = _
    rw [ih]
    by_cases ha : isHigh a = true
    · rw [insertByKey_high ha]
      simp [List.filter_cons, ha]
    · have ha' : isHigh a = false := by
        cases hv : isHigh a
        · rfl
        · exact absurd hv ha
      rw [insertByKey_skip ha' _ _
            fun b hb => (List.mem_filter.mp hb).2,
          insertByKey_front ha' _
            fun b hb => by
              have := (List.mem_filter.mp hb).2
              simpa using this]
      simp [List.filter_cons, ha']

/-- C9: after the bucket sort every "high"-priority item precedes every
other item, and each tier keeps its original insertion order — the sorted
bucket is exactly the high items in insertion order followed by all
remaining items (medium, low or unset alike, not separated further) in
insertion order. -/
theorem bucket_ordering_C9 (l : List Article) :
    sortBucket l = l.filter isHigh ++ l.filter (fun a => !(isHigh a)) :=
  sortBucket_partition l

/-! ### C1 — quota bound -/

/-- Quota application of rss_digest.py lines 499-508 on one (already
sorted) bucket: a bucket at or below the limit is untouched; otherwise,
when the high-priority items alone reach the limit the first `limit + 2` of
them are kept, else all high items plus non-high items up to `limit`
total. -/
def applyLimit (limit : Nat) (l : List Article) : List Article :=
  if limit < l.length then
    if limit ≤ (l.filter isHigh).length then
      (l.filter isHigh).take (limit + 2)
    else
      l.filter isHigh ++
        (l.filter (fun a => !(isHigh a))).take
          (limit - (l.filter isHigh).length)
  else l

lemma filter_sortBucket_high (l : List Article) :
    (sortBucket l).filter isHigh = l.filter isHigh := by
  rw [sortBucket_partition, List.filter_append]
  have h1 : (l.filter isHigh).filter isHigh = l.filter isHigh := by
    rw [List.filter_filter]
    exact List.filter_congr fun a _ => by cases isHigh a <;> simp
  have h2 : (l.filter (fun a => !(isHigh a))).filter isHigh = [] := by
    rw [List.filter_filter]
    apply List.filter_eq_nil_iff.mpr
    intro a _
    cases isHigh a <;> simp
  rw [h1, h2, List.append_nil]

lemma filter_sortBucket_nonhigh (l : List Article) :
    (sortBucket l).filter (fun a => !(isHigh a)) =
      l.filter (fun a => !(isHigh a)) := by
  rw [sortBucket_partition, List.filter_append]
  have h1 : (l.filter isHigh).filter (fun a => !(isHigh a)) = [] := by
    rw [List.filter_filter]
    apply List.filter_eq_nil_iff.mpr
    intro a _
    cases isHigh a <;> simp
  have h2 : (l.filter (fun a => !(isHigh a))).filter
      (fun a => !(isHigh a)) = l.filter (fun a => !(isHigh a)) := by
    rw [List.filter_filter]
    exact List.filter_congr fun a _ => by cases isHigh a <;> simp
  rw [h1, h2, List.nil_append]

lemma length_sortBucket (l : List Article) :
    (sortBucket l).length = l.length := by
  rw [sortBucket_partition]
  exact (List.filter_append_perm _ l).length_eq

lemma length_filter_partition (l : List Article) :
    (l.filter isHigh).length +
      (l.filter (fun a => !(isHigh a))).length = l.length := by
  have := (List.filter_append_perm isHigh l).length_eq
  simpa using this

/-- C1: after quota application with overflow allowance 2, the bucket holds
at most `limit + 2` items; whenever it still contains a non-high item it
holds at most `limit` items; when the high-priority count reaches `limit`
the result is exactly the first `limit + 2` high items; otherwise it is all
high items followed by non-high items up to `limit` total. -/
theorem quota_bound_C1 (limit : Nat) (l : List Article) :
    (applyLimit limit (sortBucket l)).length ≤ limit + 2 ∧
    ((∃ a ∈ applyLimit limit (sortBucket l), isHigh a = false) →
      (applyLimit limit (sortBucket l)).length ≤ limit) ∧
    (limit ≤ (l.filter isHigh).length →
      applyLimit limit (sortBucket l) =
        (l.filter isHigh).take (limit + 2)) ∧
    ((l.filter isHigh).length < limit →
      applyLimit limit (sortBucket l) =
        l.filter isHigh ++
          (l.filter (fun a => !(isHigh a))).take
            (limit - (l.filter isHigh).length)) := by
  have hH := filter_sortBucket_high l
  have hM := filter_sortBucket_nonhigh l
  have hlen := length_sortBucket l
  have hpart := length_filter_partition l
  unfold applyLimit
  rw [hH, hM, hlen]
  by_cases hn : limit < l.length
  · rw [if_pos hn]
    by_cases hh : limit ≤ (l.filter isHigh).length
    · rw [if_pos hh]
      refine ⟨?_, ?_, fun _ => rfl, fun hlt => absurd hh (by omega)⟩
      · have := List.length_take_le (limit + 2) (l.filter isHigh)
        omega
      · rintro ⟨a, hmem, hfa⟩
        have : a ∈ l.filter isHigh := List.take_subset _ _ hmem
        have := (List.mem_filter.mp this).2
        rw [hfa] at this
        exact absurd this Bool.false_ne_true
    · rw [if_neg hh]
      have hlen2 : (l.filter isHigh ++
          (l.filter (fun a => !(isHigh a))).take
            (limit - (l.filter isHigh).length)).length ≤ limit := by
        rw [List.length_append, List.length_take]
        omega
      exact ⟨by omega, fun _ => hlen2,
        fun hge => absurd hge hh, fun _ => rfl⟩
  · rw [if_neg hn]
    rw [sortBucket_partition]
    have hle : l.length ≤ limit := by omega
    have happ : (l.filter isHigh ++
        l.filter (fun a => !(isHigh a))).length =
        (l.filter isHigh).length +
          (l.filter (fun a => !(isHigh a))).length :=
      List.length_append _ _
    refine ⟨by omega, fun _ => by omega, ?_, ?_⟩
    · intro hge
      have hM0 : (l.filter (fun a => !(isHigh a))).length = 0 := by
        have := List.length_filter_le isHigh l
        omega
      have hMnil : l.filter (fun a => !(isHigh a)) = [] :=
        List.length_eq_zero.mp hM0
      rw [hMnil, List.append_nil,
        List.take_of_length_le (by omega : (l.filter isHigh).length ≤ limit + 2)]
    · intro hlt
      rw [List.take_of_length_le
        (by omega : (l.filter (fun a => !(isHigh a))).length ≤
          limit - (l.filter isHigh).length)]

def wHigh1 : Article :=
  { source := "NYT", category := "newspaper", title := "h1", link := "l1",
    content := "", priority := some "high" }

def wHigh2 : Article :=
  { source := "NYT", category := "newspaper", title := "h2", link := "l2",
    content := "", priority := some "high" }

def wHigh3 : Article :=
  { source := "NYT", category := "newspaper", title := "h3", link := "l3",
    content := "", priority := some "high" }

def wMed : Article :=
  { source := "NYT", category := "newspaper", title := "m1", link := "l4",
    content := "", priority := some "medium" }

/-- C1, witness: with limit 1 and three high items, quota keeps the first
three high items and drops the medium one. -/
theorem quota_bound_C1_witness :
    1 ≤ (([wHigh1, wMed, wHigh2, wHigh3]).filter isHigh).length ∧
    applyLimit 1 (sortBucket [wHigh1, wMed, wHigh2, wHigh3]) =
      (([wHigh1, wMed, wHigh2, wHigh3]).filter isHigh).take 3 :=
  ⟨by decide, (quota_bound_C1 1 [wHigh1, wMed, wHigh2, wHigh3]).2.2.1
    (by decide)⟩

/-! ### Synthesis pipeline -/

/-- Display labels `category_labels` (rss_digest.py lines 513-519); the
pipeline only ever indexes it at the five category keys, so total lookup
with default "" is faithful at every reachable call site. -/
def category_labels : StrMap String :=
  [("newspaper", "News"), ("entertainment", "Entertainment Industry"),
   ("ai_legal", "AI & Legal Tech"), ("theme_parks", "Theme Parks"),
   ("food", "LA Food Scene")]

/-- `category_labels[cat]`. -/
def labelOf (cat : String) : String :=
  (lookupKV cat category_labels).getD ""

/-- Insertion order of the `categories` dict (rss_digest.py lines
473-479). -/
def categoryKeys : List String :=
  ["entertainment", "newspaper", "ai_legal", "theme_parks", "food"]

/-- Fixed assembly order `category_order` (rss_digest.py line 585). -/
def category_order : List String :=
  ["newspaper", "entertainment", "ai_legal", "theme_parks", "food"]

/-- Python `sep.join(parts)`. -/
def joinSep (sep : String) : List String → String
  | [] => ""
  | [x] => x
  | x :: xs => x ++ sep ++ joinSep sep xs

/-- Python `.strip()` on a character list: drop whitespace from both
ends. -/
def stripChars (l : List Char) : List Char :=
  ((l.dropWhile Char.isWhitespace).reverse.dropWhile
    Char.isWhitespace).reverse

/-- Python `s.strip()`. -/
def pyStrip (s : String) : String := String.mk (stripChars s.toList)

/-- Grouping step of `synthesize_digest` (rss_digest.py lines 481-483):
the articles appended to `categories[cat]`, in their original order, keyed
by `FEED_CATEGORIES.get(a['source'], 'newspaper')`. -/
def groupOf (articles : List Article) (cat : String) : List Article :=
  articles.filter (fun a => decide (bucketCategory a.source = cat))

/-- One category's bucket after the sort of rss_digest.py lines 485-487
and the quota of lines 498-508. -/
def trimmedBucket (articles : List Article) (cat : String) : List Article :=
  applyLimit (limitOf cat) (sortBucket (groupOf articles cat))

/-- One fallback entry (rss_digest.py line 576): the original headline in
bold, the body truncated to 200 characters with an ellipsis, then the
link. -/
def fallbackEntry (a : Article) : String :=
  "**" ++ a.title ++ "**\n\n" ++ (a.content.take 200) ++ "...\n\n" ++ a.link

/-- Deterministic fallback rendering (rss_digest.py lines 574-579): one
entry per surviving item joined by blank lines, no merging. -/
def fallbackRender (articles : List Article) : String :=
  joinSep "\n\n" (articles.map fallbackEntry)

/-- One step of building `all_summaries` (rss_digest.py lines 521-579):
skip a category whose trimmed bucket is empty, otherwise record the
synthesizer's text, or the fallback rendering when the call fails (`synth`
returns `none`). -/
def sumStep (synth : String → List Article → Option String)
    (articles : List Article) (acc : StrMap String) (cat : String) :
    StrMap String :=
  let b := trimmedBucket articles cat
  if b.isEmpty then acc
  else acc ++ [(cat,
    match synth cat b with
    | some s => s
    | none => fallbackRender b)]

/-- The `all_summaries` dict after the per-category loop of
rss_digest.py lines 510-579, iterated in dict insertion order. -/
def all_summaries (synth : String → List Article → Option String)
    (articles : List Article) : StrMap String :=
  categoryKeys.foldl (sumStep synth articles) []

/-- Declarative description of one `all_summaries` entry. -/
def summaryFor (synth : String → List Article → Option String)
    (articles : List Article) (cat : String) : Option String :=
  let b := trimmedBucket articles cat
  if b.isEmpty then none
  else some (match synth cat b with
    | some s => s
    | none => fallbackRender b)

/-- One step of the assembly loop (rss_digest.py lines 587-589): a
category present in `all_summaries` whose body has non-whitespace content
contributes its labelled section. -/
def partStep (summaries : StrMap String) (acc : List String)
    (cat : String) : List String :=
  match lookupKV cat summaries with
  | some s =>
      if pyStrip s = "" then acc
      else acc ++ ["## " ++ labelOf cat ++ "\n\n" ++ s]
  | none => acc

/-- The `digest_parts` list (rss_digest.py lines 581-589). -/
def digest_parts (synth : String → List Article → Option String)
    (articles : List Article) : List String :=
  category_order.foldl (partStep (all_summaries synth articles)) []

/-- Return value of `synthesize_digest` (rss_digest.py line 591). -/
def synthesize_digest (synth : String → List Article → Option String)
    (articles : List Article) : String :=
  if (digest_parts synth articles).isEmpty then "No articles to summarize."
  else joinSep "\n\n---\n\n" (digest_parts synth articles)

/-- Declarative description of one assembled section: present exactly when
the category has a summary whose stripped body is non-empty. -/
def sectionOf (synth : String → List Article → Option String)
    (articles : List Article) (cat : String) : Option String :=
  match summaryFor synth articles cat with
  | some s =>
      if pyStrip s = "" then none
      else some ("## " ++ labelOf cat ++ "\n\n" ++ s)
  | none => none

/-! ### C10 — inconsistent category defaults -/

lemma lookupKV_mem {β : Type} (k : String) (m : StrMap β) (v : β)
    (h : lookupKV k m = some v) : (k, v) ∈ m := by
  induction m with
  | nil => simp [lookupKV] at h
  | cons p t ih =>
    obtain ⟨a, b⟩ := p
    by_cases hak : a = k
    · subst hak
      simp [lookupKV] at h
      simp [h]
    · simp only [lookupKV, hak, if_false] at h
      exact List.mem_cons_of_mem _ (ih h)

lemma getD_lookup_mem {β : Type} (k : String) (m : StrMap β) (d : β)
    (keys : List β) (hd : d ∈ keys) (hm : ∀ p ∈ m, p.2 ∈ keys) :
    (lookupKV k m).getD d ∈ keys := by
  cases hl : lookupKV k m with
  | none => simpa using hd
  | some v =>
    have := hm (k, v) (lookupKV_mem k m v hl)
    simpa using this

lemma bucketCategory_mem (s : String) : bucketCategory s ∈ categoryKeys :=
  getD_lookup_mem s FEED_CATEGORIES "newspaper" categoryKeys (by decide)
    (by decide)

/-- C10: a source absent from `FEED_CATEGORIES` is assigned category
"entertainment" at fetch time, so classification selects the entertainment
filter prompt, yet synthesis re-derives the category from the source name
with default "newspaper" and buckets the article under the News section;
the two derivations agree exactly for the sources present in the table. -/
theorem category_default_mismatch_C10 (s : String) :
    (lookupKV s FEED_CATEGORIES = none →
      fetchCategory s = "entertainment" ∧
      promptCategoryOf (fetchCategory s) = "entertainment" ∧
      bucketCategory s = "newspaper" ∧
      labelOf "newspaper" = "News") ∧
    (fetchCategory s = bucketCategory s ↔
      (lookupKV s FEED_CATEGORIES).isSome = true) := by
  constructor
  · intro hnone
    refine ⟨?_, ?_, ?_, rfl⟩
    · simp [fetchCategory, hnone]
    · simp [fetchCategory, hnone]
      decide
    · simp [bucketCategory, hnone]
  · cases hl : lookupKV s FEED_CATEGORIES with
    | none =>
      simp only [fetchCategory, bucketCategory, hl, Option.getD_none,
        Option.isSome_none]
      constructor
      · intro hcontra
        exact absurd hcontra (by decide)
      · intro hcontra
        exact absurd hcontra (by decide)
    | some v =>
      simp [fetchCategory, bucketCategory, hl]

/-- C10, witness: the mismatch at the unknown source "BBC" and the
agreement at the known source "NYT". -/
theorem category_default_mismatch_C10_witness :
    fetchCategory "BBC" = "entertainment" ∧
      bucketCategory "BBC" = "newspaper" ∧
      fetchCategory "NYT" = bucketCategory "NYT" :=
  ⟨((category_default_mismatch_C10 "BBC").1 (by decide)).1,
   ((category_default_mismatch_C10 "BBC").1 (by decide)).2.2.1,
   (category_default_mismatch_C10 "NYT").2.mpr (by decide)⟩

/-! ### C4 — seen-store write contract -/

/-- One observable effect of `main` on the seen store. -/
inductive Event where
  | classifyEvt (a : Article)
  | saveEvt (m : StrMap String)
deriving DecidableEq

/-- Effect trace of `main` (rss_digest.py lines 824-869) with respect to
the seen store: `fetch_feeds` yields the new articles; when there are none
`main` returns at lines 841-843 before classifying or saving anything;
otherwise every article is classified (lines 849-856) and afterwards the
mapping updated with all fetched articles is saved once (lines
865-868). -/
def mainEvents (h : String → String) (now : String) (seen : StrMap String)
    (raw : List Article) : List Event :=
  if (fetch_feeds h seen raw).isEmpty then []
  else (fetch_feeds h seen raw).map Event.classifyEvt ++
    [Event.saveEvt (mark_as_seen h now seen (fetch_feeds h seen raw))]

/-- Whether an event writes the seen store. -/
def isSave : Event → Bool
  | Event.saveEvt _ => true
  | Event.classifyEvt _ => false

/-- Number of seen-store writes in a trace. -/
def countSaves (tr : List Event) : Nat := (tr.filter isSave).length

lemma countSaves_trace (arts : List Article) (m : StrMap String) :
    countSaves (arts.map Event.classifyEvt ++ [Event.saveEvt m]) = 1 := by
  induction arts with
  | nil => rfl
  | cons a t ih =>
    simp only [List.map_cons, List.cons_append, countSaves,
      List.filter_cons, isSave, Bool.false_eq_true, if_false]
    exact ih

/-- C4, counterexample: on a run where `fetch_feeds` returns no new
article, `main` returns early and the seen mapping is written zero times,
not exactly once. -/
theorem seen_write_skip_C4 :
    countSaves (mainEvents id "2026-01-01T00:00:00" [] []) ≠ 1 := by
  decide

/-- C4 (amended): in every run in which `fetch_feeds` yields at least one
new article, the seen mapping is written exactly once, after all
classification attempts, and the written mapping sends the fingerprint of
every fetched article — the ones later rejected by classification
included — to the current run's timestamp, overwriting any prior value. -/
theorem seen_write_once_C4 (h : String → String) (now : String)
    (seen : StrMap String) (raw : List Article)
    (hne : fetch_feeds h seen raw ≠ []) :
    mainEvents h now seen raw =
      (fetch_feeds h seen raw).map Event.classifyEvt ++
        [Event.saveEvt (mark_as_seen h now seen (fetch_feeds h seen raw))] ∧
    countSaves (mainEvents h now seen raw) = 1 ∧
    ∀ a ∈ fetch_feeds h seen raw,
      lookupKV (get_article_hash h a)
        (mark_as_seen h now seen (fetch_feeds h seen raw)) = some now := by
  have hif : (fetch_feeds h seen raw).isEmpty = false := by
    cases hv : fetch_feeds h seen raw with
    | nil => exact absurd hv hne
    | cons a t => simp [hv]
  have htrace : mainEvents h now seen raw =
      (fetch_feeds h seen raw).map Event.classifyEvt ++
        [Event.saveEvt (mark_as_seen h now seen (fetch_feeds h seen raw))] := by
    simp [mainEvents, hif]
  refine ⟨htrace, ?_, ?_⟩
  · rw [htrace]
    exact countSaves_trace _ _
  · intro a ha
    rw [lookupKV_mark_as_seen]
    simp [List.mem_map_of_mem (get_article_hash h) ha]

/-- C4, witness: the amended theorem on a run fetching one fresh item. -/
theorem seen_write_once_C4_witness :
    countSaves (mainEvents id "2026-01-02T00:00:00" [] [wMed]) = 1 ∧
      lookupKV (get_article_hash id wMed)
        (mark_as_seen id "2026-01-02T00:00:00" []
          (fetch_feeds id [] [wMed])) = some "2026-01-02T00:00:00" :=
  ⟨(seen_write_once_C4 id "2026-01-02T00:00:00" [] [wMed]
      (by decide)).2.1,
   (seen_write_once_C4 id "2026-01-02T00:00:00" [] [wMed]
      (by decide)).2.2 wMed (by decide)⟩

/-! ### Assembly lemmas -/

lemma lookupKV_append_single_ne {β : Type} (c k : String) (v : β)
    (acc : StrMap β) (hne : c ≠ k) :
    lookupKV c (acc ++ [(k, v)]) = lookupKV c acc := by
  cases hl : lookupKV c acc with
  | none =>
    rw [lookupKV_append_none c acc _ hl]
    simp [lookupKV, Ne.symm hne]
  | some w => exact lookupKV_append_some c acc _ w hl

lemma foldl_sumStep_notmem (synth : String → List Article → Option String)
    (arts : List Article) (c : String) :
    ∀ (cats : List String) (acc : StrMap String), c ∉ cats →
      lookupKV c (cats.foldl (sumStep synth arts) acc) = lookupKV c acc := by
  intro cats
  induction cats with
  | nil => intro acc _; rfl
  | cons cat t ih =>
    intro acc hc
    have hcc : c ≠ cat := fun hh => hc (by simp [hh])
    have hct : c ∉ t := fun hh => hc (by simp [hh])
    rw [List.foldl_cons, ih _ hct]
    unfold sumStep
    by_cases hb : (trimmedBucket arts cat).isEmpty
    · simp [hb]
    · simp only [hb, if_false]
      exact lookupKV_append_single_ne c cat _ acc hcc

lemma foldl_sumStep_mem (synth : String → List Article → Option String)
    (arts : List Article) (c : String) :
    ∀ (cats : List String) (acc : StrMap String), cats.Nodup → c ∈ cats →
      lookupKV c acc = none →
      lookupKV c (cats.foldl (sumStep synth arts) acc) =
        summaryFor synth arts c := by
  intro cats
  induction cats with
  | nil =>
    intro acc _ hc _
    simp at hc
  | cons cat t ih =>
    intro acc hnd hc hacc
    rw [List.foldl_cons]
    rcases List.mem_cons.mp hc with rfl | hct
    · have hnt : c ∉ t := (List.nodup_cons.mp hnd).1
      rw [foldl_sumStep_notmem synth arts c t _ hnt]
      unfold sumStep summaryFor
      by_cases hb : (trimmedBucket arts c).isEmpty
      · simp [hb, hacc]
      · simp only [hb, Bool.false_eq_true, if_false]
        rw [lookupKV_append_none c acc _ hacc]
        simp [lookupKV]
    · have hcc : c ≠ cat := by
        rintro rfl
        exact (List.nodup_cons.mp hnd).1 hct
      apply ih _ (List.nodup_cons.mp hnd).2 hct
      unfold sumStep
      by_cases hb : (trimmedBucket arts cat).isEmpty
      · simp [hb, hacc]
      · simp only [hb, Bool.false_eq_true, if_false]
        rw [lookupKV_append_single_ne c cat _ acc hcc]
        exact hacc

lemma all_summaries_lookup (synth : String → List Article → Option String)
    (arts : List Article) (c : String) (hc : c ∈ categoryKeys) :
    lookupKV c (all_summaries synth arts) = summaryFor synth arts c :=
  foldl_sumStep_mem synth arts c categoryKeys [] (by decide) hc rfl

lemma foldl_partStep (summaries : StrMap String) :
    ∀ (cats : List String) (acc : List String),
      cats.foldl (partStep summaries) acc =
        acc ++ cats.filterMap (fun cat =>
          match lookupKV cat summaries with
          | some s =>
              if pyStrip s = "" then none
              else some ("## " ++ labelOf cat ++ "\n\n" ++ s)
          | none => none) := by
  intro cats
  induction cats with
  | nil => intro acc; simp
  | cons cat t ih =>
    intro acc
    rw [List.foldl_cons, ih, List.filterMap_cons]
    cases hl : lookupKV cat summaries with
    | none => simp [partStep, hl]
    | some s =>
      by_cases hs : pyStrip s = ""
      · simp [partStep, hl, hs]
      · simp [partStep, hl, hs]

lemma mem_keys_of_mem_order {c : String} (hc : c ∈ category_order) :
    c ∈ categoryKeys := by
  simp only [category_order, List.mem_cons, List.not_mem_nil, or_false]
    at hc
  rcases hc with rfl | rfl | rfl | rfl | rfl <;> decide

lemma mem_order_of_mem_keys {c : String} (hc : c ∈ categoryKeys) :
    c ∈ category_order := by
  simp only [categoryKeys, List.mem_cons, List.not_mem_nil, or_false]
    at hc
  rcases hc with rfl | rfl | rfl | rfl | rfl <;> decide

lemma digest_parts_eq (synth : String → List Article → Option String)
    (arts : List Article) :
    digest_parts synth arts =
      category_order.filterMap (sectionOf synth arts) := by
  unfold digest_parts
  rw [foldl_partStep, List.nil_append]
  apply List.filterMap_congr
  intro cat hcat
  rw [all_summaries_lookup synth arts cat (mem_keys_of_mem_order hcat)]
  rfl

/-! ### Whitespace-stripping lemmas -/

lemma dropWhile_exists_not (p : Char → Bool) :
    ∀ l : List Char, (∃ c ∈ l, p c = false) →
      ∃ c ∈ l.dropWhile p, p c = false := by
  intro l
  induction l with
  | nil =>
    rintro ⟨c, hc, -⟩
    simp at hc
  | cons a t ih =>
    rintro ⟨c, hc, hcf⟩
    cases hpa : p a with
    | false => exact ⟨a, by simp [List.dropWhile, hpa], hpa⟩
    | true =>
      have hct : c ∈ t := by
        rcases List.mem_cons.mp hc with rfl | hmem
        · rw [hpa] at hcf
          simp at hcf
        · exact hmem
      have := ih ⟨c, hct, hcf⟩
      simpa [List.dropWhile, hpa] using this

lemma stripChars_ne_nil {l : List Char}
    (hl : ∃ c ∈ l, Char.isWhitespace c = false) : stripChars l ≠ [] := by
  unfold stripChars
  have h1 := dropWhile_exists_not Char.isWhitespace l hl
  have h2 : ∃ c ∈ (l.dropWhile Char.isWhitespace).reverse,
      Char.isWhitespace c = false := by
    obtain ⟨c, hc, hcf⟩ := h1
    exact ⟨c, List.mem_reverse.mpr hc, hcf⟩
  obtain ⟨c, hc, -⟩ := dropWhile_exists_not Char.isWhitespace _ h2
  intro hnil
  rw [List.reverse_eq_nil_iff] at hnil
  rw [hnil] at hc
  simp at hc

lemma pyStrip_ne_empty {s : String}
    (h : ∃ c ∈ s.toList, Char.isWhitespace c = false) : pyStrip s ≠ "" := by
  intro he
  have hd : stripChars s.toList = [] := congrArg String.data he
  exact stripChars_ne_nil h hd

lemma star_mem_fallbackEntry (a : Article) :
    ('*' : Char) ∈ (fallbackEntry a).toList := by
  have hstar : ('*' : Char) ∈ "**".toList := by decide
  show ('*' : Char) ∈ (fallbackEntry a).data
  unfold fallbackEntry
  simp only [String.data_append]
  exact List.mem_append_left _ (List.mem_append_left _
    (List.mem_append_left _ (List.mem_append_left _
      (List.mem_append_left _ hstar))))

lemma star_mem_fallbackRender {b : List Article} (hb : b ≠ []) :
    ('*' : Char) ∈ (fallbackRender b).toList := by
  cases b with
  | nil => exact absurd rfl hb
  | cons a t =>
    cases t with
    | nil => exact star_mem_fallbackEntry a
    | cons a2 t2 =>
      show ('*' : Char) ∈
        ((fallbackEntry a ++ "\n\n") ++
          joinSep "\n\n" (fallbackEntry a2 :: t2.map fallbackEntry)).data
      simp only [String.data_append]
      exact List.mem_append_left _
        (List.mem_append_left _ (star_mem_fallbackEntry a))

lemma pyStrip_fallback_ne {b : List Article} (hb : b ≠ []) :
    pyStrip (fallbackRender b) ≠ "" :=
  pyStrip_ne_empty ⟨'*', star_mem_fallbackRender hb, by decide⟩

/-! ### C7 — digest assembly ordering and omission -/

/-- C7: the digest's section list is exactly the non-omitted sections in
the fixed order newspaper, entertainment, ai_legal, theme_parks, food, each
prefixed by its display label; a category with no accepted items — or a
whitespace-only synthesized body — contributes no section and no header;
and the digest text joins the sections with the visible divider. -/
theorem digest_assembly_C7 (synth : String → List Article → Option String)
    (arts : List Article) :
    digest_parts synth arts =
      List.filterMap (sectionOf synth arts)
        ["newspaper", "entertainment", "ai_legal", "theme_parks", "food"] ∧
    (∀ cat, groupOf arts cat = [] → sectionOf synth arts cat = none) ∧
    (digest_parts synth arts ≠ [] →
      synthesize_digest synth arts =
        joinSep "\n\n---\n\n" (digest_parts synth arts)) := by
  refine ⟨digest_parts_eq synth arts, ?_, ?_⟩
  · intro cat hg
    have hb : trimmedBucket arts cat = [] := by
      simp [trimmedBucket, hg, sortBucket, applyLimit]
    simp [sectionOf, summaryFor, hb]
  · intro hne
    have hif : (digest_parts synth arts).isEmpty = false := by
      cases hv : digest_parts synth arts with
      | nil => exact absurd hv hne
      | cons x xs => simp
    simp [synthesize_digest, hif]

def synthOk : String → List Article → Option String := fun _ _ => some "S"

def synthFail : String → List Article → Option String := fun _ _ => none

/-- C7, witness: an absent category yields no section, and a non-empty
parts list is joined with the divider. -/
theorem digest_assembly_C7_witness :
    sectionOf synthOk ([] : List Article) "food" = none ∧
    synthesize_digest synthOk [wHigh1] =
      joinSep "\n\n---\n\n" (digest_parts synthOk [wHigh1]) :=
  ⟨(digest_assembly_C7 synthOk []).2.1 "food" rfl,
   (digest_assembly_C7 synthOk [wHigh1]).2.2 (by decide)⟩

/-! ### C6 — synthesis fallback -/

/-- C6: when the synthesis call for a category's batch fails, that
category's entry in `all_summaries` becomes the deterministic per-item
fallback rendering — one `fallbackEntry` (title, truncated body, link) per
surviving item, joined without merging — the fallback section still reaches
the assembled digest parts, and the summary of every other category is
unchanged by the failure: sections degrade independently. -/
theorem synthesis_fallback_C6 (synth : String → List Article → Option String)
    (arts : List Article) (cat : String) :
    (trimmedBucket arts cat ≠ [] →
      synth cat (trimmedBucket arts cat) = none →
      lookupKV cat (all_summaries synth arts) =
        some (fallbackRender (trimmedBucket arts cat)) ∧
      ("## " ++ labelOf cat ++ "\n\n" ++
          fallbackRender (trimmedBucket arts cat)) ∈
        digest_parts synth arts) ∧
    (∀ synth2 : String → List Article → Option String,
      (∀ c, c ≠ cat → synth c = synth2 c) →
      ∀ c, c ≠ cat →
        lookupKV c (all_summaries synth arts) =
          lookupKV c (all_summaries synth2 arts)) := by
  constructor
  · intro hbne hfail
    have hg : groupOf arts cat ≠ [] := by
      intro hg0
      exact hbne (by simp [trimmedBucket, hg0, sortBucket, applyLimit])
    obtain ⟨a, ha⟩ := List.exists_mem_of_ne_nil _ hg
    have hbc : bucketCategory a.source = cat := by
      have := (List.mem_filter.mp ha).2
      simpa using this
    have hmem : cat ∈ categoryKeys := hbc ▸ bucketCategory_mem a.source
    have hbf : (trimmedBucket arts cat).isEmpty = false := by
      cases hv : trimmedBucket arts cat with
      | nil => exact absurd hv hbne
      | cons x xs => simp
    have hsf : summaryFor synth arts cat =
        some (fallbackRender (trimmedBucket arts cat)) := by
      simp [summaryFor, hbf, hfail]
    refine ⟨?_, ?_⟩
    · rw [all_summaries_lookup synth arts cat hmem]
      exact hsf
    · rw [digest_parts_eq]
      apply List.mem_filterMap.mpr
      refine ⟨cat, mem_order_of_mem_keys hmem, ?_⟩
      simp [sectionOf, hsf, pyStrip_fallback_ne hbne]
  · intro synth2 hagree c hcc
    by_cases hck : c ∈ categoryKeys
    · rw [all_summaries_lookup synth arts c hck,
        all_summaries_lookup synth2 arts c hck]
      unfold summaryFor
      rw [hagree c hcc]
    · show lookupKV c (categoryKeys.foldl (sumStep synth arts) []) =
        lookupKV c (categoryKeys.foldl (sumStep synth2 arts) [])
      rw [foldl_sumStep_notmem synth arts c categoryKeys [] hck,
        foldl_sumStep_notmem synth2 arts c categoryKeys [] hck]

/-- C6, witness: a failing synthesizer on a one-item newspaper batch
produces exactly the fallback rendering for that category. -/
theorem synthesis_fallback_C6_witness :
    lookupKV "newspaper" (all_summaries synthFail [wHigh2]) =
      some (fallbackRender (trimmedBucket [wHigh2] "newspaper")) :=
  ((synthesis_fallback_C6 synthFail [wHigh2] "newspaper").1
    (by decide) rfl).1

end Nooze
